import Mathlib

/-!
Shallow embedding of the Music-Listener API in-memory catalog store
(`src/musicListnerApi.go`) and a verification of its specification.

Modelling conventions:
* The Go `map[string]User` / `map[string]Playlist` globals become
  association lists inside an explicit `Store` value; `mapFind` is Go map
  lookup and `mapInsert` is Go map assignment (replace-or-append).
* `generateID` draws from `math/rand`; it is modelled by an abstract
  supply `gen : Nat → String` applied to a counter `Store.nextId` that
  advances once per `generateID()` call, in call order.
* Each HTTP handler becomes a function `Store → params → Store × Except Err Out`;
  request-body decoding is modelled by an `Option` parameter (`none` is a
  decode failure), and `sendError` messages map to the spec's error
  taxonomy: "Invalid secret code"/401 ↦ NotAuthorized, "Invalid playlist
  ID"/404 and "Invalid song ID"/404 ↦ NotFound, "Playlist cannot be
  empty"/400 ↦ InvariantViolation, "Invalid request"/400 and "Invalid
  request body"/400 ↦ BadRequest.
* Go slice aliasing is modelled faithfully: in `deleteSongFromPlaylist`
  the handler encodes the loop variable `playlist`, whose `Songs` slice
  header keeps the pre-removal length over the backing array that
  `append(playlist.Songs[:j], playlist.Songs[j+1:]...)` has just shifted
  in place, so the encoded song list is the post-removal list followed by
  a repeat of the final pre-removal song.
-/

structure Song where
  ID : String
  Name : String
  Composer : String
  URL : String
deriving DecidableEq, Repr

structure Playlist where
  ID : String
  Name : String
  Songs : List Song
deriving DecidableEq, Repr

structure User where
  ID : String
  SecretCode : String
  Name : String
  Email : String
  Playlists : List Playlist
deriving DecidableEq, Repr

/-- The global mutable state: `users` keyed by secret code, the dead
`playlists` map keyed by playlist ID, and the identifier-supply counter. -/
structure Store where
  users : List (String × User)
  playlists : List (String × Playlist)
  nextId : Nat
deriving DecidableEq, Repr

/-- State at process start: both maps empty. -/
def initialStore : Store := ⟨[], [], 0⟩

/-- The spec's error taxonomy (§7). -/
inductive Err where
  | NotAuthorized
  | NotFound
  | InvariantViolation
  | BadRequest
deriving DecidableEq, Repr

/-- A successful handler response body. -/
inductive Out where
  | user : User → Out
  | playlist : Playlist → Out
  | song : Song → Out
deriving DecidableEq, Repr

/-- Go map lookup `m[k]` on the association-list model. -/
def mapFind (k : String) : List (String × α) → Option α
  | [] => none
  | (k', v) :: rest => if k' == k then some v else mapFind k rest

/-- Go map assignment `m[k] = v`: replace the binding if present, else add it. -/
def mapInsert (k : String) (v : α) : List (String × α) → List (String × α)
  | [] => [(k, v)]
  | (k', v') :: rest =>
    if k' == k then (k, v) :: rest else (k', v') :: mapInsert k v rest

/-- `loginHandler`: lookup by secret code; 401 on miss. -/
def loginHandler (store : Store) (secretCode : String) : Store × Except Err Out :=
  match mapFind secretCode store.users with
  | some user => (store, .ok (.user user))
  | none => (store, .error .NotAuthorized)

/-- `viewProfile`: same body as `loginHandler`. -/
def viewProfile (store : Store) (secretCode : String) : Store × Except Err Out :=
  match mapFind secretCode store.users with
  | some user => (store, .ok (.user user))
  | none => (store, .error .NotAuthorized)

/-- `registerHandler`: decode the body (arbitrary caller fields, playlists
included), overwrite `ID` and `SecretCode` with fresh identifiers, append
the default playlist holding one default song, store, and echo the user. -/
def registerHandler (gen : Nat → String) (store : Store) (body : Option User) :
    Store × Except Err Out :=
  match body with
  | none => (store, .error .BadRequest)
  | some input =>
    let n := store.nextId
    let user : User :=
      { input with
          ID := gen n,
          SecretCode := gen (n+1),
          Playlists := input.Playlists ++
            [{ ID := gen (n+2), Name := "Default",
               Songs := [{ ID := gen (n+3), Name := "Default Song",
                           Composer := "Default Composer",
                           URL := "http://default.url" }] }] }
    ({ store with users := mapInsert (gen (n+1)) user store.users, nextId := n + 4 },
     .ok (.user user))

/-- `createPlaylist`: requires a valid secret code; appends a fresh playlist
seeded with one default song and returns the new playlist. -/
def createPlaylist (gen : Nat → String) (store : Store)
    (secretCode playlistName : String) : Store × Except Err Out :=
  match mapFind secretCode store.users with
  | some user =>
    let n := store.nextId
    let newPlaylist : Playlist :=
      { ID := gen n, Name := playlistName,
        Songs := [{ ID := gen (n+1), Name := "Default Song",
                    Composer := "Default Composer",
                    URL := "http://default.url" }] }
    ({ store with
        users := mapInsert secretCode
          { user with Playlists := user.Playlists ++ [newPlaylist] } store.users,
        nextId := n + 2 },
     .ok (.playlist newPlaylist))
  | none => (store, .error .NotAuthorized)

/-- Inner loop of `deleteSongFromPlaylist`: remove the first song whose ID
matches, or `none` when no song matches (the Go loop falls through). -/
def delSong (songID : String) : List Song → Option (List Song)
  | [] => none
  | sg :: rest =>
    if sg.ID == songID then some rest
    else (delSong songID rest).map (fun r => sg :: r)

/-- Outcome of the playlist scan in `deleteSongFromPlaylist`. -/
inductive RemoveOutcome where
  | invariantStop
  | removed : List Playlist → Playlist → RemoveOutcome
  | fallthru
deriving DecidableEq, Repr

/-- Outer loop of `deleteSongFromPlaylist` over the user's playlists.  On a
playlist whose ID matches: a single-song playlist aborts with the
invariant error; otherwise the first matching song is removed and the
handler returns the loop-variable `playlist`, whose aliased slice header
shows the removed list followed by the stale final array slot (the last
pre-removal song).  A matching playlist without the song, like a
non-matching playlist, lets the loop continue. -/
def delSongScan (playlistID songID : String) : List Playlist → RemoveOutcome
  | [] => .fallthru
  | pl :: rest =>
    if pl.ID == playlistID then
      if pl.Songs.length == 1 then .invariantStop
      else
        match delSong songID pl.Songs with
        | some erased =>
          .removed ({ pl with Songs := erased } :: rest)
            { pl with Songs := erased ++ pl.Songs.drop (pl.Songs.length - 1) }
        | none =>
          match delSongScan playlistID songID rest with
          | .removed ps ret => .removed (pl :: ps) ret
          | o => o
    else
      match delSongScan playlistID songID rest with
      | .removed ps ret => .removed (pl :: ps) ret
      | o => o

/-- `deleteSongFromPlaylist`: every failure (unknown secret code, no
matching playlist/song) falls through to the generic 400, except the
explicit "Playlist cannot be empty" guard. -/
def deleteSongFromPlaylist (store : Store) (secretCode playlistID songID : String) :
    Store × Except Err Out :=
  match mapFind secretCode store.users with
  | some user =>
    match delSongScan playlistID songID user.Playlists with
    | .invariantStop => (store, .error .InvariantViolation)
    | .removed ps ret =>
      ({ store with users := mapInsert secretCode { user with Playlists := ps } store.users },
       .ok (.playlist ret))
    | .fallthru => (store, .error .BadRequest)
  | none => (store, .error .BadRequest)

/-- Loop of `addSongToPlaylist`: append the song (its ID already replaced)
to the first playlist whose ID matches. -/
def addSongScan (newSong : Song) (playlistID : String) :
    List Playlist → Option (List Playlist)
  | [] => none
  | pl :: rest =>
    if pl.ID == playlistID then
      some ({ pl with Songs := pl.Songs ++ [newSong] } :: rest)
    else (addSongScan newSong playlistID rest).map (fun r => pl :: r)

/-- `addSongToPlaylist`: decode the song body, require a valid secret code
and an owned playlist, overwrite the song's ID with a fresh identifier,
append it, and return the new song. -/
def addSongToPlaylist (gen : Nat → String) (store : Store)
    (secretCode playlistID : String) (body : Option Song) : Store × Except Err Out :=
  match body with
  | none => (store, .error .BadRequest)
  | some newSong =>
    match mapFind secretCode store.users with
    | some user =>
      let song : Song := { newSong with ID := gen store.nextId }
      match addSongScan song playlistID user.Playlists with
      | some ps =>
        ({ store with
            users := mapInsert secretCode { user with Playlists := ps } store.users,
            nextId := store.nextId + 1 },
         .ok (.song song))
      | none => (store, .error .NotFound)
    | none => (store, .error .NotAuthorized)

/-- Loop of `deletePlaylist`: drop the first playlist whose ID matches. -/
def delPlaylistScan (playlistID : String) : List Playlist → Option (List Playlist)
  | [] => none
  | pl :: rest =>
    if pl.ID == playlistID then some rest
    else (delPlaylistScan playlistID rest).map (fun r => pl :: r)

/-- `deletePlaylist`: requires a valid secret code and an owned playlist;
removes the playlist whole and returns the updated user. -/
def deletePlaylist (store : Store) (secretCode playlistID : String) :
    Store × Except Err Out :=
  match mapFind secretCode store.users with
  | some user =>
    match delPlaylistScan playlistID user.Playlists with
    | some ps =>
      ({ store with users := mapInsert secretCode { user with Playlists := ps } store.users },
       .ok (.user { user with Playlists := ps }))
    | none => (store, .error .NotFound)
  | none => (store, .error .NotAuthorized)

/-- Nested loops of `getSongDetail`: first matching song in
playlist-then-song order. -/
def findSongScan (songID : String) : List Playlist → Option Song
  | [] => none
  | pl :: rest =>
    match pl.Songs.find? (fun sg => sg.ID == songID) with
    | some sg => some sg
    | none => findSongScan songID rest

/-- `getSongDetail`: requires a valid secret code; scans the user's
playlists for the first song with the given ID. -/
def getSongDetail (store : Store) (secretCode songID : String) :
    Store × Except Err Out :=
  match mapFind secretCode store.users with
  | some user =>
    match findSongScan songID user.Playlists with
    | some sg => (store, .ok (.song sg))
    | none => (store, .error .NotFound)
  | none => (store, .error .NotAuthorized)

/-- One inbound request, with its decoded parameters. -/
inductive Op where
  | register : Option User → Op
  | login : String → Op
  | viewProfile : String → Op
  | createPlaylist : String → String → Op
  | addSong : String → String → Option Song → Op
  | removeSong : String → String → String → Op
  | removePlaylist : String → String → Op
  | getSongDetail : String → String → Op

/-- Dispatch of one serialized request to its handler (the lock makes each
handler an atomic step). -/
def step (gen : Nat → String) (s : Store) : Op → Store × Except Err Out
  | .register body => registerHandler gen s body
  | .login c => loginHandler s c
  | .viewProfile c => viewProfile s c
  | .createPlaylist c nm => createPlaylist gen s c nm
  | .addSong c p b => addSongToPlaylist gen s c p b
  | .removeSong c p q => deleteSongFromPlaylist s c p q
  | .removePlaylist c p => deletePlaylist s c p
  | .getSongDetail c q => getSongDetail s c q

/-- States reachable from the empty store by operations satisfying `P`. -/
inductive ReachableFrom (gen : Nat → String) (P : Op → Prop) : Store → Prop where
  | init : ReachableFrom gen P initialStore
  | next {s : Store} (op : Op) :
      ReachableFrom gen P s → P op → ReachableFrom gen P (step gen s op).1

/-- Registration inputs that smuggle no caller-supplied playlists. -/
def SafeOp : Op → Prop
  | .register (some u) => u.Playlists = []
  | _ => True

/-- The spec's playlist non-emptiness invariant over the whole store. -/
def StoreInv (s : Store) : Prop :=
  ∀ kv ∈ s.users, ∀ pl ∈ kv.2.Playlists, pl.Songs ≠ []

/-- All identifiers of one playlist (its own and its songs'). -/
def playlistIDs (pl : Playlist) : List String :=
  pl.ID :: pl.Songs.map Song.ID

/-- All identifiers of one user (ID, secret code, playlists, songs). -/
def userIDs (u : User) : List String :=
  u.ID :: u.SecretCode :: (u.Playlists.map playlistIDs).flatten

/-- Every identifier present anywhere in the store. -/
def storeIDs (s : Store) : List String :=
  (s.users.map (fun kv => userIDs kv.2)).flatten ++
    (s.playlists.map (fun kv => playlistIDs kv.2)).flatten

/-- Every identifier in the store is an output of the generator at an index
below the current counter. -/
def IdsFromGen (gen : Nat → String) (s : Store) : Prop :=
  ∀ i ∈ storeIDs s, i ∈ (List.range s.nextId).map gen

instance {ε α : Type} [DecidableEq ε] [DecidableEq α] : DecidableEq (Except ε α) := fun x y =>
  match x, y with
  | .ok a, .ok b =>
    if h : a = b then .isTrue (by rw [h]) else .isFalse (fun hc => h (Except.ok.inj hc))
  | .error a, .error b =>
    if h : a = b then .isTrue (by rw [h]) else .isFalse (fun hc => h (Except.error.inj hc))
  | .ok _, .error _ => .isFalse (fun hc => Except.noConfusion hc)
  | .error _, .ok _ => .isFalse (fun hc => Except.noConfusion hc)

/-- A user fixture whose identifiers are all numeric generator outputs. -/
def demoSongA : Song := ⟨"3", "SongA", "CompA", "urlA"⟩

def demoSongB : Song := ⟨"4", "SongB", "CompB", "urlB"⟩

def demoUser : User := ⟨"0", "1", "Alice", "a@ex.com", [⟨"2", "Mix", [demoSongA, demoSongB]⟩]⟩

def demoStore : Store := ⟨[("1", demoUser)], [], 5⟩


/-! ### Association-list map lemmas -/

theorem mapFind_mem {v : α} : ∀ {l : List (String × α)} {k : String},
    mapFind k l = some v → (k, v) ∈ l := by
  intro l
  induction l with
  | nil => intro k h; simp [mapFind] at h
  | cons kv rest ih =>
    intro k h
    obtain ⟨k', v'⟩ := kv
    by_cases hk : k' = k
    · subst hk
      simp [mapFind] at h
      simp [h]
    · simp [mapFind, hk] at h
      exact List.mem_cons_of_mem _ (ih h)

theorem mem_mapInsert {v : α} {x : String × α} :
    ∀ {l : List (String × α)} {k : String},
    x ∈ mapInsert k v l → x = (k, v) ∨ x ∈ l := by
  intro l
  induction l with
  | nil => intro k h; simp [mapInsert] at h; simp [h]
  | cons kv rest ih =>
    intro k h
    obtain ⟨k', v'⟩ := kv
    by_cases hk : k' = k
    · subst hk
      simp [mapInsert] at h
      rcases h with h | h
      · exact Or.inl h
      · exact Or.inr (List.mem_cons_of_mem _ h)
    · simp [mapInsert, hk] at h
      rcases h with h | h
      · exact Or.inr (by simp [h])
      · rcases ih h with h' | h'
        · exact Or.inl h'
        · exact Or.inr (List.mem_cons_of_mem _ h')

/-! ### Lemmas about the song-removal loops -/

theorem delSong_mem {songID : String} :
    ∀ {l l' : List Song}, delSong songID l = some l' → ∀ x ∈ l', x ∈ l := by
  intro l
  induction l with
  | nil => intro l' h; simp [delSong] at h
  | cons sg rest ih =>
    intro l' h x hx
    by_cases hid : sg.ID = songID
    · simp [delSong, hid] at h
      subst h
      exact List.mem_cons_of_mem _ hx
    · simp [delSong, hid] at h
      obtain ⟨r, hr, hl'⟩ := h
      subst hl'
      rcases List.mem_cons.mp hx with h' | h'
      · simp [h']
      · exact List.mem_cons_of_mem _ (ih hr x h')

theorem delSong_length {songID : String} :
    ∀ {l l' : List Song}, delSong songID l = some l' → l.length = l'.length + 1 := by
  intro l
  induction l with
  | nil => intro l' h; simp [delSong] at h
  | cons sg rest ih =>
    intro l' h
    by_cases hid : sg.ID = songID
    · simp [delSong, hid] at h
      subst h
      simp
    · simp [delSong, hid] at h
      obtain ⟨r, hr, hl'⟩ := h
      subst hl'
      simp [ih hr]

theorem delSong_eq {songID : String} {sg : Song} (hsg : sg.ID = songID) :
    ∀ (S₁ S₂ : List Song), (∀ t ∈ S₁, ¬ t.ID = songID) →
    delSong songID (S₁ ++ sg :: S₂) = some (S₁ ++ S₂) := by
  intro S₁
  induction S₁ with
  | nil => intro S₂ _; simp [delSong, hsg]
  | cons t rest ih =>
    intro S₂ hmiss
    have ht : ¬ t.ID = songID := hmiss t (by simp)
    have hrest : ∀ u ∈ rest, ¬ u.ID = songID := fun u hu => hmiss u (by simp [hu])
    simp only [List.cons_append, delSong]
    simp [ht, ih S₂ hrest]

theorem delSongScan_inv (songID : String) {playlistID : String} {pl : Playlist}
    (hid : pl.ID = playlistID) (h1 : pl.Songs.length = 1) :
    ∀ (P₁ P₂ : List Playlist), (∀ q ∈ P₁, ¬ q.ID = playlistID) →
    delSongScan playlistID songID (P₁ ++ pl :: P₂) = .invariantStop := by
  intro P₁
  induction P₁ with
  | nil => intro P₂ _; simp [delSongScan, hid, h1]
  | cons q rest ih =>
    intro P₂ hmiss
    have hq : ¬ q.ID = playlistID := hmiss q (by simp)
    have hrest : ∀ r ∈ rest, ¬ r.ID = playlistID := fun r hr => hmiss r (by simp [hr])
    simp only [List.cons_append, delSongScan]
    simp [hq, ih P₂ hrest]

theorem delSongScan_found {playlistID songID : String} {pl : Playlist}
    {erased : List Song} (hid : pl.ID = playlistID) (h1 : ¬ pl.Songs.length = 1)
    (herase : delSong songID pl.Songs = some erased) :
    ∀ (P₁ P₂ : List Playlist), (∀ q ∈ P₁, ¬ q.ID = playlistID) →
    delSongScan playlistID songID (P₁ ++ pl :: P₂) =
      .removed (P₁ ++ { pl with Songs := erased } :: P₂)
        { pl with Songs := erased ++ pl.Songs.drop (pl.Songs.length - 1) } := by
  intro P₁
  induction P₁ with
  | nil => intro P₂ _; simp [delSongScan, hid, h1, herase]
  | cons q rest ih =>
    intro P₂ hmiss
    have hq : ¬ q.ID = playlistID := hmiss q (by simp)
    have hrest : ∀ r ∈ rest, ¬ r.ID = playlistID := fun r hr => hmiss r (by simp [hr])
    simp only [List.cons_append, delSongScan]
    simp [hq, ih P₂ hrest]

theorem delSongScan_nonempty {playlistID songID : String} :
    ∀ {l ps : List Playlist} {ret : Playlist},
    delSongScan playlistID songID l = .removed ps ret →
    (∀ pl ∈ l, pl.Songs ≠ []) → ∀ pl ∈ ps, pl.Songs ≠ [] := by
  intro l
  induction l with
  | nil => intro ps ret h; simp [delSongScan] at h
  | cons pl rest ih =>
    intro ps ret h hne
    by_cases hid : pl.ID = playlistID
    · by_cases h1 : pl.Songs.length = 1
      · simp [delSongScan, hid, h1] at h
      · cases herase : delSong songID pl.Songs with
        | some erased =>
          simp [delSongScan, hid, h1, herase] at h
          obtain ⟨hps, _⟩ := h
          subst hps
          intro q hq
          rcases List.mem_cons.mp hq with hq' | hq'
          · subst hq'
            intro hcon
            simp only [Playlist.mk.injEq] at hcon ⊢
            have hlen := delSong_length herase
            rw [show erased = [] from hcon] at hlen
            exact h1 (by simpa using hlen)
          · exact hne q (List.mem_cons_of_mem _ hq') 
        | none =>
          cases hrec : delSongScan playlistID songID rest with
          | removed ps' ret' =>
            simp [delSongScan, hid, h1, herase, hrec] at h
            obtain ⟨hps, _⟩ := h
            subst hps
            intro q hq
            rcases List.mem_cons.mp hq with hq' | hq'
            · exact hne q (by simp [hq'])
            · exact ih hrec (fun r hr => hne r (List.mem_cons_of_mem _ hr)) q hq'
          | invariantStop => simp [delSongScan, hid, h1, herase, hrec] at h
          | fallthru => simp [delSongScan, hid, h1, herase, hrec] at h
    · cases hrec : delSongScan playlistID songID rest with
      | removed ps' ret' =>
        simp [delSongScan, hid, hrec] at h
        obtain ⟨hps, _⟩ := h
        subst hps
        intro q hq
        rcases List.mem_cons.mp hq with hq' | hq'
        · exact hne q (by simp [hq'])
        · exact ih hrec (fun r hr => hne r (List.mem_cons_of_mem _ hr)) q hq'
      | invariantStop => simp [delSongScan, hid, hrec] at h
      | fallthru => simp [delSongScan, hid, hrec] at h

theorem addSongScan_found (newSong : Song) {playlistID : String} {pl : Playlist}
    (hid : pl.ID = playlistID) :
    ∀ (P₁ P₂ : List Playlist), (∀ q ∈ P₁, ¬ q.ID = playlistID) →
    addSongScan newSong playlistID (P₁ ++ pl :: P₂) =
      some (P₁ ++ { pl with Songs := pl.Songs ++ [newSong] } :: P₂) := by
  intro P₁
  induction P₁ with
  | nil => intro P₂ _; simp [addSongScan, hid]
  | cons q rest ih =>
    intro P₂ hmiss
    have hq : ¬ q.ID = playlistID := hmiss q (by simp)
    have hrest : ∀ r ∈ rest, ¬ r.ID = playlistID := fun r hr => hmiss r (by simp [hr])
    simp only [List.cons_append, addSongScan]
    simp [hq, ih P₂ hrest]

theorem addSongScan_nonempty {playlistID : String} {newSong : Song} :
    ∀ {l ps : List Playlist}, addSongScan newSong playlistID l = some ps →
    (∀ pl ∈ l, pl.Songs ≠ []) → ∀ pl ∈ ps, pl.Songs ≠ [] := by
  intro l
  induction l with
  | nil => intro ps h; simp [addSongScan] at h
  | cons pl rest ih =>
    intro ps h hne
    by_cases hid : pl.ID = playlistID
    · simp [addSongScan, hid] at h
      subst h
      intro q hq
      rcases List.mem_cons.mp hq with hq' | hq'
      · subst hq'; simp
      · exact hne q (List.mem_cons_of_mem _ hq')
    · simp [addSongScan, hid] at h
      obtain ⟨r, hr, hps⟩ := h
      subst hps
      intro q hq
      rcases List.mem_cons.mp hq with hq' | hq'
      · exact hne q (by simp [hq'])
      · exact ih hr (fun t ht => hne t (List.mem_cons_of_mem _ ht)) q hq'

theorem delPlaylistScan_mem {playlistID : String} :
    ∀ {l ps : List Playlist}, delPlaylistScan playlistID l = some ps →
    ∀ pl ∈ ps, pl ∈ l := by
  intro l
  induction l with
  | nil => intro ps h; simp [delPlaylistScan] at h
  | cons pl rest ih =>
    intro ps h q hq
    by_cases hid : pl.ID = playlistID
    · simp [delPlaylistScan, hid] at h
      subst h
      exact List.mem_cons_of_mem _ hq
    · simp [delPlaylistScan, hid] at h
      obtain ⟨r, hr, hps⟩ := h
      subst hps
      rcases List.mem_cons.mp hq with hq' | hq'
      · simp [hq']
      · exact List.mem_cons_of_mem _ (ih hr q hq')

/-- The user's songs in playlist-then-song iteration order. -/
def songsFlat : List Playlist → List Song
  | [] => []
  | pl :: rest => pl.Songs ++ songsFlat rest

theorem findSongScan_eq_flat (songID : String) :
    ∀ l : List Playlist,
    findSongScan songID l = (songsFlat l).find? (fun sg => sg.ID == songID) := by
  intro l
  induction l with
  | nil => simp [findSongScan, songsFlat]
  | cons pl rest ih =>
    simp only [findSongScan, songsFlat, List.find?_append]
    cases hf : pl.Songs.find? (fun sg => sg.ID == songID) with
    | some sg => simp [hf]
    | none => simp [hf, ih]

/-! ### Handler-level lemmas -/

theorem loginHandler_fst (s : Store) (c : String) : (loginHandler s c).1 = s := by
  unfold loginHandler
  cases mapFind c s.users <;> rfl

theorem viewProfile_fst (s : Store) (c : String) : (viewProfile s c).1 = s := by
  unfold viewProfile
  cases mapFind c s.users <;> rfl

theorem getSongDetail_fst (s : Store) (c q : String) : (getSongDetail s c q).1 = s := by
  cases hf : mapFind c s.users with
  | some u =>
    cases hscan : findSongScan q u.Playlists with
    | some sg => simp [getSongDetail, hf, hscan]
    | none => simp [getSongDetail, hf, hscan]
  | none => simp [getSongDetail, hf]

theorem forall_mem_mapInsert {P : String × α → Prop} {l : List (String × α)}
    {k : String} {v : α} (hl : ∀ kv ∈ l, P kv) (hv : P (k, v)) :
    ∀ kv ∈ mapInsert k v l, P kv := by
  intro kv hkv
  rcases mem_mapInsert hkv with h | h
  · rw [h]; exact hv
  · exact hl kv h


theorem storeInv_mk {us : List (String × User)} {pls : List (String × Playlist)} {n : Nat}
    (h : ∀ kv ∈ us, ∀ pl ∈ kv.2.Playlists, pl.Songs ≠ []) :
    StoreInv ⟨us, pls, n⟩ := h

/-- Every operation preserves playlist non-emptiness, provided registration
bodies smuggle no caller playlists. -/
theorem storeInv_step (gen : Nat → String) (s : Store) (op : Op)
    (hs : StoreInv s) (hop : SafeOp op) : StoreInv (step gen s op).1 := by
  have hs' : ∀ kv ∈ s.users, ∀ pl ∈ kv.2.Playlists, pl.Songs ≠ [] := hs
  cases op with
  | register body =>
    cases body with
    | none => exact hs
    | some input =>
      have hpl : input.Playlists = [] := hop
      show StoreInv (registerHandler gen s (some input)).1
      simp only [registerHandler]
      refine storeInv_mk (forall_mem_mapInsert hs' ?_)
      intro pl hpl'
      simp [hpl] at hpl'
      simp [hpl']
  | login c =>
    show StoreInv (loginHandler s c).1
    rw [loginHandler_fst]; exact hs
  | viewProfile c =>
    show StoreInv (viewProfile s c).1
    rw [viewProfile_fst]; exact hs
  | getSongDetail c q =>
    show StoreInv (getSongDetail s c q).1
    rw [getSongDetail_fst]; exact hs
  | createPlaylist c nm =>
    show StoreInv (createPlaylist gen s c nm).1
    cases hf : mapFind c s.users with
    | none => simp only [createPlaylist, hf]; exact hs
    | some u =>
      have hu : (c, u) ∈ s.users := mapFind_mem hf
      simp only [createPlaylist, hf]
      refine storeInv_mk (forall_mem_mapInsert hs' ?_)
      intro pl hpl
      simp at hpl
      rcases hpl with hpl | hpl
      · exact hs' (c, u) hu pl hpl
      · simp [hpl]
  | addSong c p b =>
    show StoreInv (addSongToPlaylist gen s c p b).1
    cases b with
    | none => exact hs
    | some sng =>
      cases hf : mapFind c s.users with
      | none => simp only [addSongToPlaylist, hf]; exact hs
      | some u =>
        have hu : (c, u) ∈ s.users := mapFind_mem hf
        cases hscan : addSongScan { sng with ID := gen s.nextId } p u.Playlists with
        | none => simp only [addSongToPlaylist, hf, hscan]; exact hs
        | some ps =>
          simp only [addSongToPlaylist, hf, hscan]
          refine storeInv_mk (forall_mem_mapInsert hs' ?_)
          intro pl hpl
          exact addSongScan_nonempty hscan (fun r hr => hs' (c, u) hu r hr) pl hpl
  | removeSong c p q =>
    show StoreInv (deleteSongFromPlaylist s c p q).1
    cases hf : mapFind c s.users with
    | none => simp only [deleteSongFromPlaylist, hf]; exact hs
    | some u =>
      have hu : (c, u) ∈ s.users := mapFind_mem hf
      cases hscan : delSongScan p q u.Playlists with
      | invariantStop => simp only [deleteSongFromPlaylist, hf, hscan]; exact hs
      | fallthru => simp only [deleteSongFromPlaylist, hf, hscan]; exact hs
      | removed ps ret =>
        simp only [deleteSongFromPlaylist, hf, hscan]
        refine storeInv_mk (forall_mem_mapInsert hs' ?_)
        intro pl hpl
        exact delSongScan_nonempty hscan (fun r hr => hs' (c, u) hu r hr) pl hpl
  | removePlaylist c p =>
    show StoreInv (deletePlaylist s c p).1
    cases hf : mapFind c s.users with
    | none => simp only [deletePlaylist, hf]; exact hs
    | some u =>
      have hu : (c, u) ∈ s.users := mapFind_mem hf
      cases hscan : delPlaylistScan p u.Playlists with
      | none => simp only [deletePlaylist, hf, hscan]; exact hs
      | some ps =>
        simp only [deletePlaylist, hf, hscan]
        refine storeInv_mk (forall_mem_mapInsert hs' ?_)
        intro pl hpl
        exact hs' (c, u) hu pl (delPlaylistScan_mem hscan pl hpl)

/-- No handler ever writes the top-level playlist map. -/
theorem step_playlists (gen : Nat → String) (s : Store) (op : Op) :
    (step gen s op).1.playlists = s.playlists := by
  cases op with
  | register body =>
    cases body with
    | none => rfl
    | some input => rfl
  | login c => rw [show (step gen s (Op.login c)).1 = s from loginHandler_fst s c]
  | viewProfile c => rw [show (step gen s (Op.viewProfile c)).1 = s from viewProfile_fst s c]
  | getSongDetail c q =>
    rw [show (step gen s (Op.getSongDetail c q)).1 = s from getSongDetail_fst s c q]
  | createPlaylist c nm =>
    show (createPlaylist gen s c nm).1.playlists = s.playlists
    cases hf : mapFind c s.users with
    | none => simp only [createPlaylist, hf]
    | some u => simp only [createPlaylist, hf]
  | addSong c p b =>
    show (addSongToPlaylist gen s c p b).1.playlists = s.playlists
    cases b with
    | none => rfl
    | some sng =>
      cases hf : mapFind c s.users with
      | none => simp only [addSongToPlaylist, hf]
      | some u =>
        cases hscan : addSongScan { sng with ID := gen s.nextId } p u.Playlists with
        | none => simp only [addSongToPlaylist, hf, hscan]
        | some ps => simp only [addSongToPlaylist, hf, hscan]
  | removeSong c p q =>
    show (deleteSongFromPlaylist s c p q).1.playlists = s.playlists
    cases hf : mapFind c s.users with
    | none => simp only [deleteSongFromPlaylist, hf]
    | some u =>
      cases hscan : delSongScan p q u.Playlists with
      | invariantStop => simp only [deleteSongFromPlaylist, hf, hscan]
      | fallthru => simp only [deleteSongFromPlaylist, hf, hscan]
      | removed ps ret => simp only [deleteSongFromPlaylist, hf, hscan]
  | removePlaylist c p =>
    show (deletePlaylist s c p).1.playlists = s.playlists
    cases hf : mapFind c s.users with
    | none => simp only [deletePlaylist, hf]
    | some u =>
      cases hscan : delPlaylistScan p u.Playlists with
      | none => simp only [deletePlaylist, hf, hscan]
      | some ps => simp only [deletePlaylist, hf, hscan]

/-- A registration body that smuggles an empty caller-supplied playlist. -/
def evilUser : User := ⟨"x", "y", "Eve", "e@ex.com", [⟨"p0", "Evil", []⟩]⟩

/-- A plain registration body with no caller-supplied playlists. -/
def basicUser : User := ⟨"", "", "Bob", "b@ex.com", []⟩

/-- C1 (counterexample): the playlist non-emptiness invariant is NOT
maintained in every reachable state — one `register` call whose decoded
body carries an empty caller-supplied playlist reaches a state in which
that user owns a playlist with no songs. -/
theorem C1_counterexample :
    ¬ (∀ s : Store,
        ReachableFrom (fun n => toString n) (fun _ => True) s → StoreInv s) := by
  intro h
  have hreach : ReachableFrom (fun n => toString n) (fun _ => True)
      (step (fun n => toString n) initialStore (Op.register (some evilUser))).1 :=
    ReachableFrom.next (Op.register (some evilUser)) ReachableFrom.init trivial
  have hinv := h _ hreach
  have hmem : ∃ kv ∈ (step (fun n => toString n) initialStore
      (Op.register (some evilUser))).1.users,
      ∃ pl ∈ kv.2.Playlists, pl.Songs = [] := by decide
  obtain ⟨kv, hkv, pl, hpl, hnil⟩ := hmem
  exact hinv kv hkv pl hpl hnil

/-- C1 (amended): in every store state reachable from the empty store by
register / createPlaylist / addSong / removeSong / removePlaylist (and the
read operations), where every register body supplies no playlists of its
own, every playlist of every user contains at least one song: the default
playlists are seeded with one song and every mutation that would leave a
playlist empty is rejected. -/
theorem C1_invariant (gen : Nat → String) (s : Store)
    (h : ReachableFrom gen SafeOp s) : StoreInv s := by
  induction h with
  | init => intro kv hkv; simp [initialStore] at hkv
  | next op hr hop ih => exact storeInv_step gen _ op ih hop

theorem C1_invariant_witness :
    StoreInv (step (fun n => toString n) initialStore (Op.register (some basicUser))).1 :=
  C1_invariant (fun n => toString n) _
    (ReachableFrom.next (Op.register (some basicUser)) ReachableFrom.init rfl)

/-- C9: the top-level collection keyed by playlist identifier is dead
state — it is written by no operation, so it stays empty in every state
reachable from the empty store by arbitrary operations. -/
theorem C9_dead_playlists (gen : Nat → String) (s : Store)
    (h : ReachableFrom gen (fun _ => True) s) : s.playlists = [] := by
  induction h with
  | init => rfl
  | next op hr hop ih => rw [step_playlists]; exact ih

theorem C9_dead_playlists_witness :
    (step (fun n => toString n) initialStore (Op.register (some basicUser))).1.playlists = [] :=
  C9_dead_playlists (fun n => toString n) _
    (ReachableFrom.next (Op.register (some basicUser)) ReachableFrom.init trivial)

/-- C10: failure atomicity — whenever any operation returns an error of any
kind, the store (every user, playlist and song, the dead playlist map and
the identifier counter) is exactly as it was before the call. -/
theorem C10_failure_atomicity (gen : Nat → String) (s : Store) (op : Op)
    (s' : Store) (e : Err) (h : step gen s op = (s', Except.error e)) : s' = s := by
  cases op with
  | register body =>
    cases body with
    | none =>
      simp only [step, registerHandler] at h
      exact (congrArg Prod.fst h).symm
    | some input =>
      simp only [step, registerHandler] at h
      exact absurd (congrArg Prod.snd h) (by simp)
  | login c =>
    cases hf : mapFind c s.users with
    | some u =>
      simp only [step, loginHandler, hf] at h
      exact absurd (congrArg Prod.snd h) (by simp)
    | none =>
      simp only [step, loginHandler, hf] at h
      exact (congrArg Prod.fst h).symm
  | viewProfile c =>
    cases hf : mapFind c s.users with
    | some u =>
      simp only [step, viewProfile, hf] at h
      exact absurd (congrArg Prod.snd h) (by simp)
    | none =>
      simp only [step, viewProfile, hf] at h
      exact (congrArg Prod.fst h).symm
  | getSongDetail c q =>
    cases hf : mapFind c s.users with
    | some u =>
      cases hscan : findSongScan q u.Playlists with
      | some sg =>
        simp only [step, getSongDetail, hf, hscan] at h
        exact absurd (congrArg Prod.snd h) (by simp)
      | none =>
        simp only [step, getSongDetail, hf, hscan] at h
        exact (congrArg Prod.fst h).symm
    | none =>
      simp only [step, getSongDetail, hf] at h
      exact (congrArg Prod.fst h).symm
  | createPlaylist c nm =>
    cases hf : mapFind c s.users with
    | some u =>
      simp only [step, createPlaylist, hf] at h
      exact absurd (congrArg Prod.snd h) (by simp)
    | none =>
      simp only [step, createPlaylist, hf] at h
      exact (congrArg Prod.fst h).symm
  | addSong c p b =>
    cases b with
    | none =>
      simp only [step, addSongToPlaylist] at h
      exact (congrArg Prod.fst h).symm
    | some sng =>
      cases hf : mapFind c s.users with
      | none =>
        simp only [step, addSongToPlaylist, hf] at h
        exact (congrArg Prod.fst h).symm
      | some u =>
        cases hscan : addSongScan { sng with ID := gen s.nextId } p u.Playlists with
        | none =>
          simp only [step, addSongToPlaylist, hf, hscan] at h
          exact (congrArg Prod.fst h).symm
        | some ps =>
          simp only [step, addSongToPlaylist, hf, hscan] at h
          exact absurd (congrArg Prod.snd h) (by simp)
  | removeSong c p q =>
    cases hf : mapFind c s.users with
    | none =>
      simp only [step, deleteSongFromPlaylist, hf] at h
      exact (congrArg Prod.fst h).symm
    | some u =>
      cases hscan : delSongScan p q u.Playlists with
      | invariantStop =>
        simp only [step, deleteSongFromPlaylist, hf, hscan] at h
        exact (congrArg Prod.fst h).symm
      | fallthru =>
        simp only [step, deleteSongFromPlaylist, hf, hscan] at h
        exact (congrArg Prod.fst h).symm
      | removed ps ret =>
        simp only [step, deleteSongFromPlaylist, hf, hscan] at h
        exact absurd (congrArg Prod.snd h) (by simp)
  | removePlaylist c p =>
    cases hf : mapFind c s.users with
    | none =>
      simp only [step, deletePlaylist, hf] at h
      exact (congrArg Prod.fst h).symm
    | some u =>
      cases hscan : delPlaylistScan p u.Playlists with
      | none =>
        simp only [step, deletePlaylist, hf, hscan] at h
        exact (congrArg Prod.fst h).symm
      | some ps =>
        simp only [step, deletePlaylist, hf, hscan] at h
        exact absurd (congrArg Prod.snd h) (by simp)

theorem C10_failure_atomicity_witness :
    step (fun n => toString n) initialStore (Op.login "x") =
      (initialStore, Except.error Err.NotAuthorized) ∧ initialStore = initialStore :=
  ⟨by decide, C10_failure_atomicity (fun n => toString n) initialStore (Op.login "x")
    initialStore Err.NotAuthorized (by decide)⟩

/-- C2 (failing evaluation): on a two-song playlist `[demoSongA, demoSongB]`,
removing `demoSongA` stores the correct post-removal playlist
`[demoSongB]`, but the Playlist value the handler returns shows
`[demoSongB, demoSongB]` — the pre-removal song count with the final song
duplicated, because the handler encodes the stale loop variable whose
slice header still spans the in-place-shifted backing array.  The returned
value is therefore not the playlist's post-removal state. -/
theorem C2_returned_playlist_is_stale :
    deleteSongFromPlaylist demoStore "1" "2" "3" =
      (⟨[("1", { demoUser with Playlists := [⟨"2", "Mix", [demoSongB]⟩] })], [], 5⟩,
       Except.ok (Out.playlist ⟨"2", "Mix", [demoSongB, demoSongB]⟩))
    ∧ (⟨"2", "Mix", [demoSongB, demoSongB]⟩ : Playlist) ≠ ⟨"2", "Mix", [demoSongB]⟩ := by
  constructor
  · decide
  · decide

/-- C3: when the first playlist of the user matching `playlistID` holds
exactly one song, removeSong fails with InvariantViolation (for any
`songID`) and the store — hence the stored playlist, its song count and
song identities — is returned exactly unchanged. -/
theorem C3_sole_song_protected (store : Store) (secretCode playlistID songID : String)
    (u : User) (P₁ P₂ : List Playlist) (pl : Playlist)
    (hf : mapFind secretCode store.users = some u)
    (hsplit : u.Playlists = P₁ ++ pl :: P₂)
    (hmiss : ∀ q ∈ P₁, ¬ q.ID = playlistID)
    (hid : pl.ID = playlistID)
    (h1 : pl.Songs.length = 1) :
    deleteSongFromPlaylist store secretCode playlistID songID =
      (store, Except.error Err.InvariantViolation) := by
  have hscan := delSongScan_inv songID hid h1 P₁ P₂ hmiss
  rw [← hsplit] at hscan
  simp only [deleteSongFromPlaylist, hf, hscan]

/-- A user owning a single one-song playlist, for the C3 witness. -/
def soloUser : User := ⟨"0", "1", "Carol", "c@ex.com", [⟨"2", "Solo", [⟨"3", "Only", "Comp", "u3"⟩]⟩]⟩

def soloStore : Store := ⟨[("1", soloUser)], [], 4⟩

theorem C3_sole_song_protected_witness :
    deleteSongFromPlaylist soloStore "1" "2" "3" =
      (soloStore, Except.error Err.InvariantViolation) :=
  C3_sole_song_protected soloStore "1" "2" "3" soloUser [] []
    ⟨"2", "Solo", [⟨"3", "Only", "Comp", "u3"⟩]⟩
    (by decide) (by decide) (by simp) (by decide) (by decide)

/-- C4: a successful removeSong on a playlist with at least two songs, one of
which matches, stores that playlist with exactly the matched occurrence
removed: the first matching song is dropped, every other song is kept with
identical identity and order, and the stored song count goes down by
exactly one. -/
theorem C4_removal_exact (store : Store) (secretCode playlistID songID : String)
    (u : User) (P₁ P₂ : List Playlist) (pl : Playlist) (S₁ S₂ : List Song) (sg : Song)
    (hf : mapFind secretCode store.users = some u)
    (hsplit : u.Playlists = P₁ ++ pl :: P₂)
    (hmiss : ∀ q ∈ P₁, ¬ q.ID = playlistID)
    (hid : pl.ID = playlistID)
    (hsongs : pl.Songs = S₁ ++ sg :: S₂)
    (hsmiss : ∀ t ∈ S₁, ¬ t.ID = songID)
    (hsg : sg.ID = songID)
    (h2 : 2 ≤ pl.Songs.length) :
    deleteSongFromPlaylist store secretCode playlistID songID =
      ({ store with
          users :=
            mapInsert secretCode
              { u with Playlists := P₁ ++ { pl with Songs := S₁ ++ S₂ } :: P₂ }
              store.users },
       Except.ok (Out.playlist
         { pl with Songs := (S₁ ++ S₂) ++ pl.Songs.drop (pl.Songs.length - 1) }))
    ∧ (S₁ ++ S₂).length + 1 = pl.Songs.length := by
  have h1 : ¬ pl.Songs.length = 1 := by omega
  have herase : delSong songID pl.Songs = some (S₁ ++ S₂) := by
    rw [hsongs]; exact delSong_eq hsg S₁ S₂ hsmiss
  have hscan := delSongScan_found hid h1 herase P₁ P₂ hmiss
  rw [← hsplit] at hscan
  constructor
  · simp only [deleteSongFromPlaylist, hf, hscan]
  · rw [hsongs]
    simp [List.length_append]
    omega

theorem C4_removal_exact_witness :
    deleteSongFromPlaylist demoStore "1" "2" "3" =
      ({ demoStore with
          users :=
            mapInsert "1"
              { demoUser with Playlists := [⟨"2", "Mix", [demoSongB]⟩] }
              demoStore.users },
       Except.ok (Out.playlist ⟨"2", "Mix", [demoSongB, demoSongB]⟩)) :=
  (C4_removal_exact demoStore "1" "2" "3" demoUser [] []
    ⟨"2", "Mix", [demoSongA, demoSongB]⟩ [] [demoSongB] demoSongA
    (by decide) (by decide) (by simp) (by decide) (by decide) (by simp) (by decide)
    (by decide)).1

/-- C5: register assigns the user a generator-produced identifier and secret
code, ignoring any caller-supplied `ID`/`SecretCode` (the result is
invariant under changing them), appends a default playlist holding exactly
one default song, and — whenever all store identifiers come from earlier
generator outputs and the generator does not repeat itself — the new
identifier and secret code are fresh with respect to the whole store. -/
theorem C5_register_contract (gen : Nat → String) (store : Store) (input : User) :
    ∃ u : User,
      registerHandler gen store (some input) =
        ({ store with
            users := mapInsert (gen (store.nextId + 1)) u store.users,
            nextId := store.nextId + 4 },
         Except.ok (Out.user u))
      ∧ u.ID = gen store.nextId
      ∧ u.SecretCode = gen (store.nextId + 1)
      ∧ u.Name = input.Name ∧ u.Email = input.Email
      ∧ u.Playlists = input.Playlists ++
          [{ ID := gen (store.nextId + 2), Name := "Default",
             Songs := [{ ID := gen (store.nextId + 3), Name := "Default Song",
                         Composer := "Default Composer", URL := "http://default.url" }] }]
      ∧ (∀ w : User, w.Name = input.Name → w.Email = input.Email →
           w.Playlists = input.Playlists →
           registerHandler gen store (some w) = registerHandler gen store (some input))
      ∧ (IdsFromGen gen store →
           gen store.nextId ∉ (List.range store.nextId).map gen →
           u.ID ∉ storeIDs store)
      ∧ (IdsFromGen gen store →
           gen (store.nextId + 1) ∉ (List.range store.nextId).map gen →
           u.SecretCode ∉ storeIDs store) := by
  refine ⟨_, rfl, rfl, rfl, rfl, rfl, rfl, ?_, ?_, ?_⟩
  · intro w h1 h2 h3
    simp only [registerHandler]
    rw [h1, h2, h3]
  · intro hprov hfresh hcon
    exact hfresh (hprov _ hcon)
  · intro hprov hfresh hcon
    exact hfresh (hprov _ hcon)

/-- C6: authenticate (`loginHandler`) and `viewProfile` are the same read:
equal on every store and secret code, returning the stored user snapshot
exactly on a valid code, NotAuthorized on an invalid one, and leaving the
store untouched. -/
theorem C6_auth_view_equiv (store : Store) (secretCode : String) :
    viewProfile store secretCode = loginHandler store secretCode
    ∧ (loginHandler store secretCode).1 = store
    ∧ (viewProfile store secretCode).1 = store
    ∧ (∀ u, mapFind secretCode store.users = some u →
        loginHandler store secretCode = (store, Except.ok (Out.user u)))
    ∧ (mapFind secretCode store.users = none →
        loginHandler store secretCode = (store, Except.error Err.NotAuthorized)) := by
  refine ⟨rfl, loginHandler_fst store secretCode, viewProfile_fst store secretCode, ?_, ?_⟩
  · intro u hf
    simp only [loginHandler, hf]
  · intro hf
    simp only [loginHandler, hf]

/-- C7: getSongDetail requires a valid secret code (else NotAuthorized),
scans the user's playlists in stored order and each playlist's songs in
sequence order, returns the first song whose identifier matches, and fails
with NotFound when no song of any playlist matches.  The store is
untouched either way. -/
theorem C7_get_song_detail (store : Store) (secretCode songID : String) :
    (mapFind secretCode store.users = none →
      getSongDetail store secretCode songID = (store, Except.error Err.NotAuthorized))
    ∧ (∀ u, mapFind secretCode store.users = some u →
        getSongDetail store secretCode songID =
          (store,
           match (songsFlat u.Playlists).find? (fun sg => sg.ID == songID) with
           | some sg => Except.ok (Out.song sg)
           | none => Except.error Err.NotFound)) := by
  constructor
  · intro hf
    simp only [getSongDetail, hf]
  · intro u hf
    have hflat := findSongScan_eq_flat songID u.Playlists
    cases hx : (songsFlat u.Playlists).find? (fun sg => sg.ID == songID) with
    | some sg =>
      rw [hx] at hflat
      simp only [getSongDetail, hf, hflat, hx]
    | none =>
      rw [hx] at hflat
      simp only [getSongDetail, hf, hflat, hx]

/-- C8: addSong on a valid secret code and owned playlist overwrites the
caller-supplied song identifier with the next generator output (the result
is invariant under the caller's `ID` field), appends the song at the end
of that playlist's sequence, and — whenever all store identifiers come
from earlier generator outputs and the generator does not repeat itself —
the assigned identifier is distinct from every identifier anywhere in the
store. -/
theorem C8_add_song_fresh (gen : Nat → String) (store : Store)
    (secretCode playlistID : String) (body : Song) (u : User)
    (P₁ P₂ : List Playlist) (pl : Playlist)
    (hf : mapFind secretCode store.users = some u)
    (hsplit : u.Playlists = P₁ ++ pl :: P₂)
    (hmiss : ∀ q ∈ P₁, ¬ q.ID = playlistID)
    (hid : pl.ID = playlistID)
    (hprov : IdsFromGen gen store)
    (hfresh : gen store.nextId ∉ (List.range store.nextId).map gen) :
    addSongToPlaylist gen store secretCode playlistID (some body) =
      ({ store with
          users :=
            mapInsert secretCode
              { u with Playlists := P₁ ++
                  { pl with Songs := pl.Songs ++ [{ body with ID := gen store.nextId }] } :: P₂ }
              store.users,
          nextId := store.nextId + 1 },
       Except.ok (Out.song { body with ID := gen store.nextId }))
    ∧ gen store.nextId ∉ storeIDs store
    ∧ (∀ b : Song, b.Name = body.Name → b.Composer = body.Composer → b.URL = body.URL →
         addSongToPlaylist gen store secretCode playlistID (some b) =
           addSongToPlaylist gen store secretCode playlistID (some body)) := by
  have hscan := addSongScan_found { body with ID := gen store.nextId } hid P₁ P₂ hmiss
  rw [← hsplit] at hscan
  refine ⟨?_, ?_, ?_⟩
  · simp only [addSongToPlaylist, hf, hscan]
  · intro hcon
    exact hfresh (hprov _ hcon)
  · intro b h1 h2 h3
    have hb : ({ b with ID := gen store.nextId } : Song) =
        { body with ID := gen store.nextId } := by
      cases b; cases body; simp_all
    simp only [addSongToPlaylist, hb]

theorem C8_add_song_fresh_witness :
    toString 5 ∉ storeIDs demoStore ∧
    addSongToPlaylist (fun n => toString n) demoStore "1" "2"
        (some ⟨"zzz", "New", "NewComp", "newurl"⟩) =
      ({ demoStore with
          users :=
            mapInsert "1"
              { demoUser with Playlists :=
                  [⟨"2", "Mix", [demoSongA, demoSongB, ⟨toString 5, "New", "NewComp", "newurl"⟩]⟩] }
              demoStore.users,
          nextId := 6 },
       Except.ok (Out.song ⟨toString 5, "New", "NewComp", "newurl"⟩)) := by
  have h := C8_add_song_fresh (fun n => toString n) demoStore "1" "2"
    ⟨"zzz", "New", "NewComp", "newurl"⟩ demoUser [] [] ⟨"2", "Mix", [demoSongA, demoSongB]⟩
    (by decide) (by decide) (by simp) (by decide)
    (by unfold IdsFromGen; decide) (by decide)
  exact ⟨h.2.1, h.1⟩
